import Mathlib

/-!
Shallow embedding of the `pdfpdf` PDF-writing library (src/lib.rs, src/util.rs)
and proofs about its object/offset bookkeeping, page flushing, compression
wiring, text layout helpers and the custom numeric formatter.

Modelling conventions:
* Byte buffers (`Vec<u8>`) are `List Char`; every byte the library emits
  outside the fixed file header is ASCII, so list length equals byte count.
  The four high-bit header marker bytes are single `Char`s as well.
* `f64` values are idealized as `ℚ`.  The external collaborators — the
  `ryu`-based numeric token renderer used by the `ryu!` macro, the `Display`
  rendering of floats, the build-time `fonts::glyph_width` table and the
  `deflate` crate — are collected in an `Ext` record and every operation is
  parametric in it; the claims proved below hold for all instantiations.
* Rust panics (out-of-bounds indexing in `width_of`/`draw_text`) are `none`
  in `Option`-returning translations.
-/

namespace Pdfpdf

/-- Byte strings, modelled as lists of characters. -/
abbrev Bytes := List Char

/-- The bytes denoted by a Lean string literal. -/
def strData (s : String) : Bytes := s.data

/-- Decimal rendering of a nonnegative integer, as Rust `format!("\x7b\x7d", n)`. -/
def natStr (n : Nat) : Bytes := (Nat.repr n).data

/-- Rendering of `format!("\x7b:010\x7d", n)`: decimal digits left-padded with zeros
to width 10. -/
def pad10 (n : Nat) : Bytes := List.replicate (10 - (natStr n).length) '0' ++ natStr n

/-- The builtin font enum generated by build.rs from the Core14 AFM files
(file names with the dash removed). -/
inductive Font
  | Courier | CourierBold | CourierBoldOblique | CourierOblique
  | Helvetica | HelveticaBold | HelveticaBoldOblique | HelveticaOblique
  | Symbol
  | TimesBold | TimesBoldItalic | TimesItalic | TimesRoman
  | ZapfDingbats
deriving DecidableEq, Inhabited

/-- Rendering of `format!("\x7b:?\x7d", font)`: the derived `Debug` output is the
bare constructor name. -/
def fontDebug : Font → Bytes
  | .Courier => strData "Courier"
  | .CourierBold => strData "CourierBold"
  | .CourierBoldOblique => strData "CourierBoldOblique"
  | .CourierOblique => strData "CourierOblique"
  | .Helvetica => strData "Helvetica"
  | .HelveticaBold => strData "HelveticaBold"
  | .HelveticaBoldOblique => strData "HelveticaBoldOblique"
  | .HelveticaOblique => strData "HelveticaOblique"
  | .Symbol => strData "Symbol"
  | .TimesBold => strData "TimesBold"
  | .TimesBoldItalic => strData "TimesBoldItalic"
  | .TimesItalic => strData "TimesItalic"
  | .TimesRoman => strData "TimesRoman"
  | .ZapfDingbats => strData "ZapfDingbats"

/-- Compression levels of the external `deflate` crate. -/
inductive DeflateLevel
  | Fast | Default | Best
deriving DecidableEq, Inhabited

/-- Compression policy of a document (lib.rs `enum Compression`). -/
inductive Compression
  | Fast | Normal | Best | Off
deriving DecidableEq, Inhabited

/-- Translation of `Compression::to_deflate`. -/
def Compression.to_deflate : Compression → Option DeflateLevel
  | .Fast => some .Fast
  | .Normal => some .Default
  | .Best => some .Best
  | .Off => none

/-- RGB color with byte components (graphicsstate.rs `Color`). -/
structure Color where
  red : Nat
  green : Nat
  blue : Nat
deriving DecidableEq

/-- `Color::rgb`. -/
def Color.rgb (red green blue : Nat) : Color := ⟨red, green, blue⟩

/-- `Color::gray`. -/
def Color.gray (g : Nat) : Color := ⟨g, g, g⟩

/-- Affine transform matrix: the six entries of graphicsstate.rs `Matrix`. -/
structure Matrix where
  v0 : ℚ
  v1 : ℚ
  v2 : ℚ
  v3 : ℚ
  v4 : ℚ
  v5 : ℚ
deriving DecidableEq

/-- Text alignment options (text.rs `Alignment`). -/
inductive Alignment
  | TopLeft | TopRight | TopCenter
  | CenterLeft | CenterCenter | CenterRight
  | BottomLeft | BottomRight | BottomCenter
deriving DecidableEq

/-- An RGB image handed to `add_image_at` (image.rs `Image`). -/
structure Image where
  buf : Bytes
  width : Nat
  height : Nat
deriving DecidableEq

/-- External collaborators of the core, kept abstract: the numeric token
renderer behind the `ryu!` macro, the `Display` rendering of a float, the
build-generated glyph width table, and the `deflate` compressor.  All
theorems below are universally quantified over this record. -/
structure Ext where
  fmtNum : ℚ → Bytes
  display : ℚ → Bytes
  glyphWidth : Font → Char → ℚ
  deflate : DeflateLevel → Bytes → Bytes

/-- One item of a `ryu!` invocation: a numeric value or a literal operator. -/
inductive Tok
  | num : ℚ → Tok
  | str : String → Tok

/-- Rendering of a single `ryu!` item. -/
def ryuTok (ext : Ext) : Tok → Bytes
  | .num v => ext.fmtNum v
  | .str s => s.data

/-- Emission pattern of the `ryu!` macro (util.rs): each item is followed by a
space, except the last which is followed by a newline. -/
def ryuEmit (ext : Ext) : List Tok → Bytes
  | [] => []
  | [t] => ryuTok ext t ++ ['\n']
  | t :: ts => ryuTok ext t ++ [' '] ++ ryuEmit ext ts

/-- A PDF indirect object (lib.rs `PdfObject`). -/
structure PdfObject where
  contents : Bytes
  id : Nat
  is_page : Bool
  is_xobject : Bool
  offset : Option Nat
deriving DecidableEq, Inhabited

/-- The in-memory PDF document (lib.rs `Pdf`). -/
structure Pdf where
  buffer : Bytes
  page_buffer : Bytes
  objects : List PdfObject
  width : ℚ
  height : ℚ
  fonts : List Font
  font_size : ℚ
  current_font_index : Nat
  compression : Compression
deriving DecidableEq

/-- The fixed file header `b"%PDF-1.7\n%\xB5\xED\xAE\xFB\n"`. -/
def pdfHeader : Bytes :=
  strData "%PDF-1.7\n" ++ ['%', Char.ofNat 0xB5, Char.ofNat 0xED, Char.ofNat 0xAE, Char.ofNat 0xFB, '\n']

/-- Translation of `Pdf::new`. -/
def Pdf.new : Pdf where
  buffer := pdfHeader
  page_buffer := []
  objects :=
    [ { contents := [], id := 1, is_page := false, is_xobject := false, offset := none },
      { contents := [], id := 2, is_page := false, is_xobject := false, offset := none } ]
  width := 400
  height := 400
  fonts := [Font.Helvetica]
  font_size := 12
  current_font_index := 0
  compression := Compression.Fast

/-- Translation of `Pdf::add_object`: the fresh id is
`objects.iter().map(|o| o.id).max().unwrap_or(3) + 1`. -/
def Pdf.add_object (st : Pdf) (data : Bytes) (is_page is_xobject : Bool) : Pdf × Nat :=
  let id := ((st.objects.map (fun o => o.id)).max?.getD 3) + 1
  ({ st with objects := st.objects ++
      [{ contents := data, id := id, is_page := is_page, is_xobject := is_xobject, offset := none }] },
   id)

/-- Translation of `Pdf::compression` (named apart from the field accessor). -/
def Pdf.setCompression (st : Pdf) (c : Compression) : Pdf :=
  { st with compression := c }

/-- Translation of `Pdf::set_clipping_box`. -/
def Pdf.set_clipping_box (ext : Ext) (st : Pdf) (location size : ℚ × ℚ) : Pdf :=
  { st with page_buffer := st.page_buffer ++
      ryuEmit ext [.num location.1, .num location.2, .num size.1, .num size.2, .str "re W n"] }

/-- Translation of `Pdf::add_image_at`. -/
def Pdf.add_image_at (ext : Ext) (st : Pdf) (image : Image) (location : ℚ × ℚ) : Pdf :=
  let compressed := ext.deflate .Best image.buf
  { st with page_buffer := st.page_buffer
      ++ strData "q " ++ natStr image.width ++ strData " 0 0 " ++ natStr image.height
      ++ strData " " ++ ext.display location.1 ++ strData " " ++ ext.display location.2
      ++ strData " cm\nBI\n/W " ++ natStr image.width ++ strData "\n/H " ++ natStr image.height
      ++ strData "\n/CS /RGB\n/BPC 8\n/F [/Fl]\nID\n"
      ++ compressed ++ strData "\nEI Q\n" }

/-- Translation of `Pdf::move_to`. -/
def Pdf.move_to (ext : Ext) (st : Pdf) (p : ℚ × ℚ) : Pdf :=
  { st with page_buffer := st.page_buffer ++ ryuEmit ext [.num p.1, .num p.2, .str "m"] }

/-- Translation of `Pdf::line_to`. -/
def Pdf.line_to (ext : Ext) (st : Pdf) (p : ℚ × ℚ) : Pdf :=
  { st with page_buffer := st.page_buffer ++ ryuEmit ext [.num p.1, .num p.2, .str "l"] }

/-- Translation of `Pdf::curve_to`. -/
def Pdf.curve_to (ext : Ext) (st : Pdf) (c1 c2 p3 : ℚ × ℚ) : Pdf :=
  { st with page_buffer := st.page_buffer ++
      ryuEmit ext [.num c1.1, .num c1.2, .num c2.1, .num c2.2, .num p3.1, .num p3.2, .str "c"] }

/-- Translation of `Pdf::set_line_width`. -/
def Pdf.set_line_width (ext : Ext) (st : Pdf) (w : ℚ) : Pdf :=
  { st with page_buffer := st.page_buffer ++ ryuEmit ext [.num w, .str "w"] }

/-- Translation of `Pdf::set_color`: one stroke-color and one fill-color
operator, components normalized by 255. -/
def Pdf.set_color (ext : Ext) (st : Pdf) (color : Color) : Pdf :=
  let norm : Nat → ℚ := fun c => (c : ℚ) / 255
  { st with page_buffer := st.page_buffer
      ++ ryuEmit ext [.num (norm color.red), .num (norm color.green), .num (norm color.blue), .str "SC"]
      ++ ryuEmit ext [.num (norm color.red), .num (norm color.green), .num (norm color.blue), .str "rg"] }

/-- Rendering of `format!("\x7b\x7d", matrix)` (graphicsstate.rs `Display for Matrix`). -/
def matrixDisplay (ext : Ext) (m : Matrix) : Bytes :=
  ext.display m.v0 ++ strData " " ++ ext.display m.v1 ++ strData " " ++ ext.display m.v2
  ++ strData " " ++ ext.display m.v3 ++ strData " " ++ ext.display m.v4
  ++ strData " " ++ ext.display m.v5

/-- Translation of `Pdf::transform`. -/
def Pdf.transform (ext : Ext) (st : Pdf) (m : Matrix) : Pdf :=
  { st with page_buffer := st.page_buffer ++ matrixDisplay ext m ++ strData " cm\n" }

/-- The constant `0.551_915_024_494` of the 4-arc Bezier circle approximation. -/
def bezierCircleC : ℚ := 551915024494 / 1000000000000

/-- Translation of `Pdf::draw_circle`. -/
def Pdf.draw_circle (ext : Ext) (st : Pdf) (center : ℚ × ℚ) (radius : ℚ) : Pdf :=
  let x := center.1
  let y := center.2
  let top := y - radius
  let bottom := y + radius
  let left := x - radius
  let right := x + radius
  let c := bezierCircleC
  let leftp := x - radius * c
  let rightp := x + radius * c
  let topp := y - radius * c
  let bottomp := y + radius * c
  let st := st.move_to ext (x, top)
  let st := st.curve_to ext (leftp, top) (left, topp) (left, y)
  let st := st.curve_to ext (left, bottomp) (leftp, bottom) (x, bottom)
  let st := st.curve_to ext (rightp, bottom) (right, bottomp) (right, y)
  let st := st.curve_to ext (right, topp) (rightp, top) (x, top)
  { st with page_buffer := st.page_buffer ++ strData "S\n" }

/-- Translation of `Pdf::draw_circle_filled`. -/
def Pdf.draw_circle_filled (ext : Ext) (st : Pdf) (center : ℚ × ℚ) (radius : ℚ) : Pdf :=
  let x := center.1
  let y := center.2
  let top := y - radius
  let bottom := y + radius
  let left := x - radius
  let right := x + radius
  let c := bezierCircleC
  let leftp := x - radius * c
  let rightp := x + radius * c
  let topp := y - radius * c
  let bottomp := y + radius * c
  let st := st.move_to ext (x, top)
  let st := st.curve_to ext (leftp, top) (left, topp) (left, y)
  let st := st.curve_to ext (left, bottomp) (leftp, bottom) (x, bottom)
  let st := st.curve_to ext (rightp, bottom) (right, bottomp) (right, y)
  let st := st.curve_to ext (right, topp) (rightp, top) (x, top)
  { st with page_buffer := st.page_buffer ++ strData "f\n" }

/-- Bytes of the reusable dot form drawn by `draw_dots` (a filled unit circle). -/
def dotBytes (ext : Ext) : Bytes :=
  let c := bezierCircleC
  ryuEmit ext [.num 0, .num (-1), .str "m"]
  ++ ryuEmit ext [.num (-c), .num (-1), .num (-1), .num (-c), .num (-1), .num 0, .str "c"]
  ++ ryuEmit ext [.num (-1), .num c, .num (-c), .num 1, .num 0, .num 1, .str "c"]
  ++ ryuEmit ext [.num c, .num 1, .num 1, .num c, .num 1, .num 0, .str "c"]
  ++ ryuEmit ext [.num 1, .num (-c), .num c, .num (-1), .num 0, .num (-1), .str "c", .str "f"]

/-- Translation of `Pdf::draw_dots`: registers the form XObject and its name
dictionary as two fresh objects, then emits one relative translation plus
invocation per zipped point. -/
def Pdf.draw_dots (ext : Ext) (st : Pdf) (x y : List ℚ) : Pdf :=
  let dot := dotBytes ext
  let dot_obj := strData "<< /Type /XObject /Subtype /Form /BBox [ -2 -2 2 2 ] /Length "
      ++ natStr dot.length ++ strData " >>\nstream\n" ++ dot ++ strData "endstream\n"
  let (st, id) := st.add_object dot_obj false false
  let (st, _) := st.add_object (strData "<< /M0 " ++ natStr id ++ strData " 0 R >>\n") false true
  let step := fun (acc : Bytes × (ℚ × ℚ)) (p : ℚ × ℚ) =>
    (acc.1 ++ ryuEmit ext
        [.num 1, .num 0, .num 0, .num 1, .num (p.1 - acc.2.1), .num (p.2 - acc.2.2), .str "cm /M0 Do"],
     p)
  let middle := ((x.zip y).foldl step ([], (0, 0))).1
  { st with page_buffer := st.page_buffer ++ strData "q\n" ++ middle ++ strData "Q\n" }

/-- Translation of `Pdf::draw_line`: `move_to` the first zipped point if both
iterators are nonempty, `line_to` the remaining zipped points, then always the
trailing stroke operator. -/
def Pdf.draw_line (ext : Ext) (st : Pdf) (xs ys : List ℚ) : Pdf :=
  let path := match xs, ys with
    | x :: xt, y :: yt =>
        ryuEmit ext [.num x, .num y, .str "m"]
        ++ (xt.zip yt).flatMap (fun p => ryuEmit ext [.num p.1, .num p.2, .str "l"])
    | _, _ => []
  { st with page_buffer := st.page_buffer ++ path ++ strData "S\n" }

/-- Translation of `Pdf::end_line`. -/
def Pdf.end_line (st : Pdf) : Pdf :=
  { st with page_buffer := st.page_buffer ++ strData "S\n" }

/-- Translation of `Pdf::draw_rectangle_filled`. -/
def Pdf.draw_rectangle_filled (ext : Ext) (st : Pdf) (corner size : ℚ × ℚ) : Pdf :=
  { st with page_buffer := st.page_buffer ++
      ryuEmit ext [.num corner.1, .num corner.2, .num size.1, .num size.2, .str "re f"] }

/-- Translation of `Pdf::draw_rectangle`. -/
def Pdf.draw_rectangle (ext : Ext) (st : Pdf) (corner size : ℚ × ℚ) : Pdf :=
  { st with page_buffer := st.page_buffer ++
      ryuEmit ext [.num corner.1, .num corner.2, .num size.1, .num size.2, .str "re S"] }

/-- Translation of `Pdf::font`: reuse the index of an already selected font,
otherwise append the new font and make it current. -/
def Pdf.font (st : Pdf) (f : Font) (size : ℚ) : Pdf :=
  match st.fonts.findIdx? (fun g => g == f) with
  | some index => { st with current_font_index := index, font_size := size }
  | none => { st with fonts := st.fonts ++ [f],
                      current_font_index := st.fonts.length,
                      font_size := size }

/-- Translation of `Pdf::width_of`.  The Rust code indexes
`self.fonts[self.current_font_index]`, which panics when the index is out of
bounds; the panic is `none` here. -/
def Pdf.width_of (ext : Ext) (st : Pdf) (text : Bytes) : Option ℚ :=
  (st.fonts[st.current_font_index]?).map fun current_font =>
    ((text.filter (fun c => c != '\n')).map (fun c => ext.glyphWidth current_font c)).sum
      * st.font_size

/-- Splitting on a separator character with Rust `str::split` semantics:
always at least one (possibly empty) piece, empty trailing piece after a
trailing separator. -/
def splitOnChar (sep : Char) : Bytes → List Bytes
  | [] => [[]]
  | c :: cs =>
      let r := splitOnChar sep cs
      if c = sep then [] :: r
      else
        match r with
        | [] => [[c]]
        | h :: t => (c :: h) :: t

/-- Octal escape of one character: `format!("\\\x7b:o\x7d", c as u32)`. -/
def octalEsc (c : Char) : Bytes := '\\' :: Nat.toDigits 8 c.toNat

/-- Translation of `Pdf::draw_text`.  Each line's width is measured with
`width_of`, so an out-of-bounds current font index panics (`none`). -/
def Pdf.draw_text (ext : Ext) (st : Pdf) (position : ℚ × ℚ) (alignment : Alignment)
    (text : Bytes) : Option Pdf := do
  let x := position.1
  let y := position.2
  let height := st.font_size
  let lines := splitOnChar '\n' text
  let num_lines : ℚ := lines.length
  let pb0 := st.page_buffer ++ strData "BT\n/F" ++ natStr st.current_font_index
      ++ strData " " ++ ext.display st.font_size ++ strData " Tf\n"
  let pb ← lines.enum.foldlM (fun (pb : Bytes) (le : Nat × Bytes) => do
    let line := le.2
    let line_width ← st.width_of ext line
    let l : ℚ := le.1
    let lxy : ℚ × ℚ := match alignment with
      | .TopLeft => (x, y - height * (l + 1))
      | .TopRight => (x - line_width, y - height * (l + 1))
      | .TopCenter => (x - line_width / 2, y - height * (l + 1))
      | .CenterLeft => (x, (y - height / 3) - (l - (num_lines - 1) / 2) * height * (1.25 : ℚ))
      | .CenterRight =>
          (x - line_width, (y - height / 3) - (l - (num_lines - 1) / 2) * height * (1.25 : ℚ))
      | .CenterCenter =>
          (x - line_width / 2, (y - height / 3) - (l - (num_lines - 1) / 2) * height * (1.25 : ℚ))
      | .BottomLeft => (x, y + (num_lines - l - 1) * (1.25 : ℚ) * height)
      | .BottomRight => (x - line_width, y + (num_lines - l - 1) * (1.25 : ℚ) * height)
      | .BottomCenter => (x - line_width / 2, y + (num_lines - l - 1) * (1.25 : ℚ) * height)
    pure (pb ++ strData "1 0 0 1 " ++ ext.display lxy.1 ++ strData " " ++ ext.display lxy.2
        ++ strData " Tm (" ++ line.flatMap octalEsc ++ strData ") Tj\n")) pb0
  pure { st with page_buffer := pb ++ strData "ET\n" }

/-- The content-stream bytes built at the start of `Pdf::end_page`: deflate is
applied exactly once when compression is on, and the dictionary then carries
the literal filter array `[/FlateDecode]`. -/
def pageStreamBytes (ext : Ext) (compression : Compression) (page_buffer : Bytes) : Bytes :=
  match compression.to_deflate with
  | some level =>
      let compressed := ext.deflate level page_buffer
      strData "<< /Length " ++ natStr compressed.length
        ++ strData " /Filter [/FlateDecode] >>\nstream\n"
        ++ compressed ++ strData "endstream\n"
  | none =>
      strData "<< /Length " ++ natStr page_buffer.length ++ strData " >>\nstream\n"
        ++ page_buffer ++ strData "endstream\n"

/-- The per-page font resource entries written by `end_page`. -/
def fontResourceBytes (fonts : List Font) : Bytes :=
  fonts.enum.flatMap fun fe =>
    strData "  /Font <<\n   /F" ++ natStr fe.1
    ++ strData " <<\n    /Type /Font\n    /Subtype /Type1\n    /BaseFont /"
    ++ fontDebug fe.2 ++ strData "\n    /Encoding /WinAnsiEncoding\n   >>\n  >>\n"

/-- The page dictionary object bytes built by `end_page`. -/
def pageObjectBytes (ext : Ext) (objects : List PdfObject) (fonts : List Font)
    (width height : ℚ) (stream_object_id : Nat) : Bytes :=
  strData "<< /Type /Page\n /Parent 2 0 R\n /Resources <<\n"
  ++ (objects.filter (fun o => o.is_xobject)).flatMap
      (fun o => strData "/XObject " ++ natStr o.id ++ strData " 0 R ")
  ++ fontResourceBytes fonts
  ++ strData " >>\n /MediaBox [0 0 " ++ ext.display width ++ strData " " ++ ext.display height
  ++ strData "]\n /Contents " ++ natStr stream_object_id ++ strData " 0 R\n>>\n"

/-- Translation of `Pdf::end_page`: allocate the content-stream object, then
the page object, then truncate the font list to the single default font.  The
current font index is left untouched. -/
def Pdf.end_page (ext : Ext) (st : Pdf) : Pdf :=
  let page_stream := pageStreamBytes ext st.compression st.page_buffer
  let (st, stream_object_id) := st.add_object page_stream false false
  let page_object := pageObjectBytes ext st.objects st.fonts st.width st.height stream_object_id
  let (st, _) := st.add_object page_object true false
  { st with fonts := st.fonts.take 1 }

/-- Translation of `Pdf::add_page`: flush and clear the pending page, then
start the new page buffer and record its dimensions. -/
def Pdf.add_page (ext : Ext) (st : Pdf) (size : ℚ × ℚ) : Pdf :=
  let st := if st.page_buffer.isEmpty then st else { st.end_page ext with page_buffer := [] }
  { st with page_buffer := st.page_buffer ++ strData "/DeviceRGB cs /DeviceRGB CS\n1 j 1 J\n",
            width := size.1, height := size.2 }

/-- The `"<id> 0 obj"` token that starts an object's body in the file. -/
def objToken (id : Nat) : Bytes := natStr id ++ strData " 0 obj"

/-- The object-writing loop of `write_to`: record each object's offset as the
current buffer length, then append `"<id> 0 obj\n<contents>endobj\n"`. -/
def writeObjsAux : Bytes → List PdfObject → Bytes × List PdfObject
  | buf, [] => (buf, [])
  | buf, o :: rest =>
      let buf2 := buf ++ objToken o.id ++ strData "\n" ++ o.contents ++ strData "endobj\n"
      let p := writeObjsAux buf2 rest
      (p.1, { o with offset := some buf.length } :: p.2)

/-- One cross-reference entry line, `format!("\x7b:010\x7d 00000 f \n", offset)`
exactly as written by the source (note the `f` marker). -/
def xrefLine (off : Nat) : Bytes := pad10 off ++ strData " 00000 f \n"

/-- Stable insertion into a list sorted by id. -/
def insertSorted (a : PdfObject) : List PdfObject → List PdfObject
  | [] => [a]
  | b :: bs => if a.id ≤ b.id then a :: b :: bs else b :: insertSorted a bs

/-- The stable sort `objects.sort_by(|a, b| a.id.cmp(&b.id))`, modelled as a
stable insertion sort (structural recursion keeps it kernel-evaluable). -/
def sortById : List PdfObject → List PdfObject
  | [] => []
  | a :: as => insertSorted a (sortById as)

/-- The body-writing phase of `Pdf::write_to` after the pending-page flush:
write all objects except the two reserved ones, then the page tree (id 2) and
the catalog (id 1), recording every offset.  The `match` fallback is
unreachable: `Pdf::new` always seeds the two reserved objects. -/
def Pdf.writeBodyCore (ext : Ext) (st : Pdf) : Pdf :=
  let p := writeObjsAux st.buffer (st.objects.drop 2)
  let ptOff := p.1.length
  let buf := p.1 ++ strData "2 0 obj\n<< /Type /Pages\n"
      ++ strData "/Count " ++ natStr (st.objects.filter (fun o => o.is_page)).length ++ strData "\n"
  let buf := (buf ++ strData "/Kids ["
      ++ (st.objects.filter (fun o => o.is_page)).flatMap
          (fun o => natStr o.id ++ strData " 0 R ")).dropLast
  let buf := buf ++ strData "] >>\nendobj\n"
  let catOff := buf.length
  let buf := buf ++ strData "1 0 obj\n<< /Type /Catalog\n/Pages 2 0 R >>\nendobj\n"
  let objs := match st.objects with
    | o1 :: o2 :: _ =>
        { o1 with offset := some catOff } :: { o2 with offset := some ptOff } :: p.2
    | short => short
  { st with buffer := buf, objects := objs }

/-- The body-writing phase of `Pdf::write_to` including the pending-page
flush at its start. -/
def Pdf.writeBody (ext : Ext) (st0 : Pdf) : Pdf :=
  (if st0.page_buffer.isEmpty then st0 else st0.end_page ext).writeBodyCore ext

/-- Translation of `Pdf::write_to` without the final file write: the xref
section (note `startxref` is taken as the buffer length plus one before the
`xref` keyword is appended), the sort by id, the entry lines, the trailer and
the end marker.  The `offset.getD 0` models `unwrap`: every offset has been
set by `writeBody`. -/
def Pdf.write_to (ext : Ext) (st0 : Pdf) : Pdf :=
  let st := st0.writeBody ext
  let startxref := st.buffer.length + 1
  let buf := st.buffer ++ strData "xref\n"
      ++ strData "0 " ++ natStr (st.objects.length + 1) ++ strData "\n"
      ++ strData "0000000000 65535 f \n"
  let sorted := sortById st.objects
  let buf := buf ++ sorted.flatMap (fun o => xrefLine (o.offset.getD 0))
  let buf := buf ++ strData "trailer\n"
      ++ strData "<< /Size " ++ natStr sorted.length ++ strData "\n"
      ++ strData "/Root 1 0 R >>\n"
      ++ strData "startxref\n" ++ natStr startxref ++ strData "\n"
      ++ strData "%%EOF"
  { st with buffer := buf, objects := sorted }

/-- The public mutating operations of the library, for quantifying over
arbitrary call sequences. -/
inductive Op
  | addPage (size : ℚ × ℚ)
  | setCompression (c : Compression)
  | setClippingBox (location size : ℚ × ℚ)
  | addImageAt (image : Image) (location : ℚ × ℚ)
  | moveTo (p : ℚ × ℚ)
  | lineTo (p : ℚ × ℚ)
  | curveTo (c1 c2 p3 : ℚ × ℚ)
  | setLineWidth (w : ℚ)
  | setColor (c : Color)
  | transform (m : Matrix)
  | drawCircle (center : ℚ × ℚ) (radius : ℚ)
  | drawCircleFilled (center : ℚ × ℚ) (radius : ℚ)
  | drawDots (x y : List ℚ)
  | drawLine (xs ys : List ℚ)
  | endLine
  | drawRectangleFilled (corner size : ℚ × ℚ)
  | drawRectangle (corner size : ℚ × ℚ)
  | font (f : Font) (size : ℚ)
  | drawText (position : ℚ × ℚ) (alignment : Alignment) (text : Bytes)

/-- Apply one operation; `drawText` can panic, which is `none`. -/
def applyOp (ext : Ext) (st : Pdf) : Op → Option Pdf
  | .addPage size => some (st.add_page ext size)
  | .setCompression c => some (st.setCompression c)
  | .setClippingBox l s => some (st.set_clipping_box ext l s)
  | .addImageAt im l => some (st.add_image_at ext im l)
  | .moveTo p => some (st.move_to ext p)
  | .lineTo p => some (st.line_to ext p)
  | .curveTo c1 c2 p3 => some (st.curve_to ext c1 c2 p3)
  | .setLineWidth w => some (st.set_line_width ext w)
  | .setColor c => some (st.set_color ext c)
  | .transform m => some (st.transform ext m)
  | .drawCircle c r => some (st.draw_circle ext c r)
  | .drawCircleFilled c r => some (st.draw_circle_filled ext c r)
  | .drawDots x y => some (st.draw_dots ext x y)
  | .drawLine xs ys => some (st.draw_line ext xs ys)
  | .endLine => some st.end_line
  | .drawRectangleFilled c s => some (st.draw_rectangle_filled ext c s)
  | .drawRectangle c s => some (st.draw_rectangle ext c s)
  | .font f s => some (st.font f s)
  | .drawText p a t => st.draw_text ext p a t

/-- Run a sequence of public operations from a fresh document. -/
def run (ext : Ext) (ops : List Op) : Option Pdf :=
  ops.foldlM (applyOp ext) Pdf.new

/-- A concrete instantiation of the external collaborators, used to evaluate
the development on closed inputs. -/
def ext0 : Ext where
  fmtNum := fun _ => ['0']
  display := fun _ => ['0']
  glyphWidth := fun _ _ => 1
  deflate := fun _ b => b

/-- An instantiation whose deflate output is one byte longer than its input,
as real deflate behaves on incompressible data. -/
def extE : Ext where
  fmtNum := fun _ => ['0']
  display := fun _ => ['0']
  glyphWidth := fun _ _ => 1
  deflate := fun _ b => 'X' :: b

/-- Modelled from the spec: the compression pipeline of spec §4.5
(`compress(bytes) -> (compressed_bytes, round_count)`), which is absent from
the source code — repeatedly re-run deflate on its own prior output, stop as
soon as a round does not strictly shrink the buffer, and return the last
buffer together with the number of strictly shrinking rounds.  It is used
only to compare the claimed loop against the single-shot deflate the code
performs in `end_page`. -/
def specCompress (d : Bytes → Bytes) (bytes : Bytes) : Bytes × Nat :=
  let out := d bytes
  if h : out.length < bytes.length then
    let r := specCompress d out
    (r.1, r.2 + 1)
  else (bytes, 0)
termination_by bytes.length
decreasing_by exact h

/-! ### Model of the numeric formatter (util.rs `Formattable::ryu_format` for `f64`)

The formatter is modelled over ℚ at the byte level, with bytes as numerals
(45 = `-`, 46 = `.`, 48 + d = digit d).  The shortest-round-trip digit
computation lives in the external `ryu` crate; it is a parameter producing the
plain-notation digit string `"<ip>.<frac>"`, and its documented round-trip
contract (the digits parse back to the formatted value) is a hypothesis of the
round-trip theorem.  The generic `format!` fallback used outside the
plain-notation range is likewise a parameter. -/

/-- Digit output of the ryu crate for a value in the plain-notation range:
integer-part digits and fractional-part digits, most significant first. -/
structure RyuDigits where
  ip : List Nat
  frac : List Nat
deriving DecidableEq

/-- The ASCII byte of a decimal digit. -/
def byteOfDigit (d : Nat) : Nat := 48 + d

/-- The byte string `"<ip>.<frac>"` that `ryu::Buffer::format` returns. -/
def ryuBytes (r : RyuDigits) : List Nat :=
  r.ip.map byteOfDigit ++ 46 :: r.frac.map byteOfDigit

/-- Value of an integer digit list, most significant digit first. -/
def natOfDigits (ds : List Nat) : Nat := ds.foldl (fun a d => 10 * a + d) 0

/-- Value of a fractional digit list: digit at position i is worth d/10^(i+1). -/
def fracValue : List Nat → ℚ
  | [] => 0
  | d :: ds => ((d : ℚ) + fracValue ds) / 10

/-- The rational a `RyuDigits` denotes. -/
def decValue (r : RyuDigits) : ℚ := (natOfDigits r.ip : ℚ) + fracValue r.frac

/-- The magnitude path of `ryu_format` (the code after the sign handling):
exact 1 and 0 short-circuit; a value in the plain-notation range is rendered
by ryu, truncated to `precision` digits after the dot, and stripped of
trailing zeros and a trailing dot; anything else goes through the generic
fallback formatter. -/
def ryuFormatMag (ryu : ℚ → RyuDigits) (fallback : ℚ → List Nat) (precision : Nat)
    (x : ℚ) : List Nat :=
  if x = 1 then [49]
  else if x = 0 then [48]
  else if 1 / 100000 < x ∧ x < 10 ^ 16 then
    let digits := ryuBytes (ryu x)
    match digits.findIdx? (fun b => b == 46) with
    | some dot_index =>
        let digits := digits.take (min digits.length (dot_index + 1 + precision))
        let num_nonzero :=
          ((digits.reverse.dropWhile (fun b => b == 48)).dropWhile (fun b => b == 46)).length
        digits.take num_nonzero
    | none => digits
  else fallback x

/-- Translation of `Formattable::ryu_format` for `f64`: a negative value is
emitted as `-` followed by the formatted magnitude. -/
def ryu_format (ryu : ℚ → RyuDigits) (fallback : ℚ → List Nat) (precision : Nat)
    (x : ℚ) : List Nat :=
  if x < 0 then 45 :: ryuFormatMag ryu fallback precision (-x)
  else ryuFormatMag ryu fallback precision x

/-- Parse an unsigned decimal token: integer digits up to an optional dot,
then fractional digits. -/
def parseDecMag (bs : List Nat) : ℚ :=
  let ipPart := bs.takeWhile (fun b => b != 46)
  let rest := bs.dropWhile (fun b => b != 46)
  (natOfDigits (ipPart.map (fun b => b - 48)) : ℚ) +
    match rest with
    | _ :: fb => fracValue (fb.map (fun b => b - 48))
    | [] => 0

/-- Parse a formatted token back into a rational (an optional leading minus
sign, then an unsigned decimal token). -/
def parseDec : List Nat → ℚ
  | 45 :: rest => -(parseDecMag rest)
  | bs => parseDecMag bs

/-- Well-formedness of the id allocator state: in creation order the object
ids are exactly 1, 2, …, n (so they are strictly increasing, contiguous, and
the two reserved objects for the catalog and the page tree sit first). -/
def wfIds (st : Pdf) : Prop :=
  st.objects.map (fun o => o.id) = List.range' 1 st.objects.length ∧ 2 ≤ st.objects.length

/-- A concrete stand-in for the ryu digit provider, used to evaluate the
formatter theorems: every value is reported as the digits `1.5`. -/
def ryuW : ℚ → RyuDigits := fun _ => ⟨[1], [5]⟩

/-- A concrete stand-in for the generic fallback formatter. -/
def fbW : ℚ → List Nat := fun _ => []

/-- A small concrete operation sequence used to evaluate theorems. -/
def sampleOps : List Op :=
  [Op.addPage (100, 100), Op.font Font.Courier 10, Op.drawDots [1] [2],
   Op.drawLine [0, 1] [0, 1]]

/-- The document produced by `sampleOps`. -/
def sampleDoc : Pdf := (run ext0 sampleOps).getD Pdf.new

/-! ### Helper lemmas -/

/-- Splitting always yields at least one piece. -/
theorem splitOnChar_ne_nil (sep : Char) (cs : Bytes) : splitOnChar sep cs ≠ [] := by
  cases cs with
  | nil => simp [splitOnChar]
  | cons c cs =>
    rw [splitOnChar]
    split
    · simp
    · split <;> simp

/-- A prefix of a dropped buffer survives appending to the buffer. -/
theorem prefix_drop_append {t l : List Char} (u : List Char) {n : Nat}
    (h : t <+: l.drop n) : t <+: (l ++ u).drop n := by
  rw [List.drop_append_eq_append_drop]
  exact h.trans (List.prefix_append _ _)

/-! ### Theorems for the claims -/

/-- C9: `draw_line` with zero zipped input points appends only the trailing
stroke operator `S` to the page buffer (a no-op draw) and changes no other
state; with at least one point in each coordinate list it appends a `move_to`
of the first point, a `line_to` for each subsequent point (the two coordinate
lists are zipped to the shorter length) and then the stroke operator. -/
theorem draw_line_spec (ext : Ext) (st : Pdf) (xs ys : List ℚ) :
    ((xs = [] ∨ ys = []) →
      st.draw_line ext xs ys = { st with page_buffer := st.page_buffer ++ strData "S\n" }) ∧
    ∀ x xt y yt, xs = x :: xt → ys = y :: yt →
      st.draw_line ext xs ys = { st with page_buffer := (st.page_buffer
        ++ (ryuEmit ext [.num x, .num y, .str "m"]
            ++ (xt.zip yt).flatMap (fun p => ryuEmit ext [.num p.1, .num p.2, .str "l"]))
        ++ strData "S\n") } := by
  constructor
  · rintro (rfl | rfl)
    · cases ys <;> simp [Pdf.draw_line]
    · cases xs <;> simp [Pdf.draw_line]
  · rintro x xt y yt rfl rfl
    simp [Pdf.draw_line]

/-- Witness for C9: both cases evaluated on concrete inputs. -/
theorem draw_line_spec_witness :
    (Pdf.new.draw_line ext0 [] [1] =
      { Pdf.new with page_buffer := Pdf.new.page_buffer ++ strData "S\n" }) ∧
    (Pdf.new.draw_line ext0 [1, 2] [3] =
      { Pdf.new with page_buffer := (Pdf.new.page_buffer
          ++ (ryuEmit ext0 [.num 1, .num 3, .str "m"]
              ++ ([(2 : ℚ)].zip ([] : List ℚ)).flatMap
                  (fun p => ryuEmit ext0 [.num p.1, .num p.2, .str "l"]))
          ++ strData "S\n") }) :=
  ⟨(draw_line_spec ext0 Pdf.new [] [1]).1 (Or.inl rfl),
   (draw_line_spec ext0 Pdf.new [1, 2] [3]).2 1 [2] 3 [] rfl rfl⟩

/-- C8: with the current font index in bounds and no newline at the boundary,
`width_of` is additive over concatenation: the per-character glyph width sum
splits over `++` and distributes over the font size factor. -/
theorem width_of_additive (ext : Ext) (st : Pdf) (s1 s2 : Bytes)
    (hfont : st.current_font_index < st.fonts.length)
    (hboundary : s1.getLast? ≠ some '\n' ∧ s2.head? ≠ some '\n') :
    ∃ w1 w2, st.width_of ext s1 = some w1 ∧ st.width_of ext s2 = some w2 ∧
      st.width_of ext (s1 ++ s2) = some (w1 + w2) := by
  have hf : st.fonts[st.current_font_index]? = some (st.fonts.get ⟨st.current_font_index, hfont⟩) :=
    List.getElem?_eq_getElem hfont
  refine ⟨((s1.filter (fun c => c != '\n')).map
      (fun c => ext.glyphWidth (st.fonts.get ⟨st.current_font_index, hfont⟩) c)).sum * st.font_size,
    ((s2.filter (fun c => c != '\n')).map
      (fun c => ext.glyphWidth (st.fonts.get ⟨st.current_font_index, hfont⟩) c)).sum * st.font_size,
    ?_, ?_, ?_⟩
  · rw [Pdf.width_of, hf, Option.map_some']
  · rw [Pdf.width_of, hf, Option.map_some']
  · rw [Pdf.width_of, hf, Option.map_some']
    congr 1
    simp [List.filter_append, add_mul]

/-- Witness for C8: concrete strings on a fresh document. -/
theorem width_of_additive_witness :
    ∃ w1 w2, Pdf.new.width_of ext0 (strData "ab") = some w1 ∧
      Pdf.new.width_of ext0 (strData "c") = some w2 ∧
      Pdf.new.width_of ext0 (strData "ab" ++ strData "c") = some (w1 + w2) :=
  width_of_additive ext0 Pdf.new (strData "ab") (strData "c") (by decide)
    ⟨by decide, by decide⟩

/-- C10: a page flush (`end_page`) truncates the font list to the single
default font but leaves `current_font_index` untouched, so after selecting a
font with index ≥ 1 on the flushed page, `width_of` and `draw_text` index the
font list out of bounds (a Rust panic, `none` here) until a new `font` call. -/
theorem stale_font_index_panics (ext : Ext) (st : Pdf)
    (hidx : 1 ≤ st.current_font_index) (hlt : st.current_font_index < st.fonts.length)
    (text : Bytes) (position : ℚ × ℚ) (alignment : Alignment) :
    (st.end_page ext).fonts.length = 1 ∧
    (st.end_page ext).current_font_index = st.current_font_index ∧
    (st.end_page ext).width_of ext text = none ∧
    (st.end_page ext).draw_text ext position alignment text = none := by
  have hfonts1 : (st.end_page ext).fonts = st.fonts.take 1 := rfl
  have hci : (st.end_page ext).current_font_index = st.current_font_index := rfl
  have hlen : (st.end_page ext).fonts.length = 1 := by
    rw [hfonts1, List.length_take]
    omega
  have hw : ∀ tline, (st.end_page ext).width_of ext tline = none := by
    intro tline
    have hnone : (st.end_page ext).fonts[(st.end_page ext).current_font_index]? = none := by
      apply List.getElem?_eq_none
      rw [hlen, hci]
      exact hidx
    simp [Pdf.width_of, hnone]
  refine ⟨hlen, hci, hw text, ?_⟩
  rw [Pdf.draw_text]
  cases hl : splitOnChar '\n' text with
  | nil => exact absurd hl (splitOnChar_ne_nil _ _)
  | cons a t => simp [hl, hw, List.enum_cons, List.foldlM_cons]

/-- Witness for C10: select a second font, flush, then measure. -/
theorem stale_font_index_panics_witness :
    (((Pdf.new.add_page ext0 (100, 100)).font Font.TimesRoman 14).end_page ext0).fonts.length = 1 ∧
    (((Pdf.new.add_page ext0 (100, 100)).font Font.TimesRoman 14).end_page ext0).current_font_index
      = ((Pdf.new.add_page ext0 (100, 100)).font Font.TimesRoman 14).current_font_index ∧
    (((Pdf.new.add_page ext0 (100, 100)).font Font.TimesRoman 14).end_page ext0).width_of ext0
      (strData "hi") = none ∧
    (((Pdf.new.add_page ext0 (100, 100)).font Font.TimesRoman 14).end_page ext0).draw_text ext0
      (0, 0) Alignment.TopLeft (strData "hi") = none :=
  stale_font_index_panics ext0 ((Pdf.new.add_page ext0 (100, 100)).font Font.TimesRoman 14)
    (by decide) (by decide) (strData "hi") (0, 0) Alignment.TopLeft

/-- C2 (amended): the flush path deflates the page buffer exactly once.  With
compression enabled the content-stream object stores the single deflate
output unconditionally — whatever its length — and its dictionary carries the
literal filter array `[/FlateDecode]`, i.e. exactly one token, independent of
any shrinkage; with compression off the raw bytes are stored and the
dictionary has no `/Filter` entry. -/
theorem end_page_single_deflate (ext : Ext) (st : Pdf) :
    (((st.end_page ext).objects.getD st.objects.length default).contents
        = pageStreamBytes ext st.compression st.page_buffer) ∧
    (∀ level, st.compression.to_deflate = some level →
      pageStreamBytes ext st.compression st.page_buffer
        = strData "<< /Length " ++ natStr (ext.deflate level st.page_buffer).length
          ++ strData " /Filter [/FlateDecode] >>\nstream\n"
          ++ ext.deflate level st.page_buffer ++ strData "endstream\n") ∧
    (st.compression.to_deflate = none →
      pageStreamBytes ext st.compression st.page_buffer
        = strData "<< /Length " ++ natStr st.page_buffer.length ++ strData " >>\nstream\n"
          ++ st.page_buffer ++ strData "endstream\n") := by
  refine ⟨?_, ?_, ?_⟩
  · show (((st.objects ++ [_]) ++ [_]).getD st.objects.length default).contents
        = pageStreamBytes ext st.compression st.page_buffer
    rw [List.append_assoc, List.getD_eq_getElem?_getD,
      List.getElem?_append_right (le_refl _)]
    simp
  · intro level h
    simp only [pageStreamBytes, h, List.append_assoc]
  · intro h
    simp only [pageStreamBytes, h, List.append_assoc]

/-- Witness for C2's amended theorem: a concrete page buffer under `Fast`
compression with the expanding deflate instance. -/
theorem end_page_single_deflate_witness :
    pageStreamBytes extE Compression.Fast (strData "AB")
      = strData "<< /Length " ++ natStr (extE.deflate DeflateLevel.Fast (strData "AB")).length
        ++ strData " /Filter [/FlateDecode] >>\nstream\n"
        ++ extE.deflate DeflateLevel.Fast (strData "AB") ++ strData "endstream\n" :=
  (end_page_single_deflate extE { Pdf.new with page_buffer := strData "AB" }).2.1
    DeflateLevel.Fast rfl

/-- Counterexample to C2 as stated: with a deflate instance that expands its
input by one byte (as real deflate does on incompressible data), flushing the
first page of a fresh document performs zero strictly-shrinking rounds, yet
the stored stream bytes are one byte longer than the raw page bytes and the
dictionary still contains the token `/FlateDecode` — contradicting both "the
stored stream bytes are never longer than the raw page bytes" and "zero
shrinking rounds means the raw bytes are stored with no /Filter entry". -/
theorem compress_loop_claim_false :
    (specCompress (extE.deflate DeflateLevel.Fast)
        (Pdf.new.add_page extE (400, 400)).page_buffer).2 = 0 ∧
    (extE.deflate DeflateLevel.Fast (Pdf.new.add_page extE (400, 400)).page_buffer).length
      > (Pdf.new.add_page extE (400, 400)).page_buffer.length ∧
    (((Pdf.new.add_page extE (400, 400)).end_page extE).objects.getD 2 default).contents
      = strData "<< /Length 37 /Filter [/FlateDecode] >>\nstream\nX"
        ++ (Pdf.new.add_page extE (400, 400)).page_buffer ++ strData "endstream\n" := by
  refine ⟨?_, by decide, by decide⟩
  rw [specCompress]
  decide

/-- C3 (code_bug evidence): in the finalized empty document the two
cross-reference entry lines — for the catalog (id 1, offset 66) and the page
tree (id 2, offset 15), in ascending id order after the free-list head line —
carry the free marker `f`, not the in-use marker `n` the claim requires. -/
theorem xref_entry_marker_f :
    ((Pdf.new.write_to ext0).buffer.drop 124).take 20 = strData "0000000000 65535 f \n" ∧
    ((Pdf.new.write_to ext0).buffer.drop 144).take 20 = strData "0000000066 00000 f \n" ∧
    ((Pdf.new.write_to ext0).buffer.drop 164).take 20 = strData "0000000015 00000 f \n" ∧
    xrefLine 15 = strData "0000000015 00000 f \n" ∧
    xrefLine 15 ≠ strData "0000000015 00000 n \n" := by
  refine ⟨by decide, by decide, by decide, by decide, by decide⟩

/-- C4 (code_bug evidence): the finalized empty document has 2 objects; its
xref section header announces 3 entries (object count + 1) but the trailer
writes `/Size 2` — the bare object count, not count + 1 as the claim (and the
header line itself) requires. -/
theorem trailer_size_bug :
    (Pdf.new.write_to ext0).objects.length = 2 ∧
    ((Pdf.new.write_to ext0).buffer.drop 115).take 9 = strData "xref\n0 3\n" ∧
    ((Pdf.new.write_to ext0).buffer.drop 184).take 19 = strData "trailer\n<< /Size 2\n" := by
  refine ⟨by decide, by decide, by decide⟩

set_option maxRecDepth 8000 in
/-- C5 (amended): the number emitted after `startxref` is the byte position at
which the `xref` keyword begins, plus one: the keyword is appended when the
buffer has length `(writeBody st).buffer.length`, and the emitted number is
that length plus one. -/
theorem startxref_value (ext : Ext) (st0 : Pdf) :
    strData "xref\n" <+: (st0.write_to ext).buffer.drop (st0.writeBody ext).buffer.length ∧
    strData "startxref\n" ++ natStr ((st0.writeBody ext).buffer.length + 1) ++ strData "\n%%EOF"
      <:+ (st0.write_to ext).buffer := by
  have hT : (st0.write_to ext).buffer
      = (st0.writeBody ext).buffer ++ (strData "xref\n"
        ++ (strData "0 " ++ (natStr ((st0.writeBody ext).objects.length + 1) ++ (strData "\n"
        ++ (strData "0000000000 65535 f \n"
        ++ ((sortById (st0.writeBody ext).objects).flatMap (fun o => xrefLine (o.offset.getD 0))
        ++ (strData "trailer\n" ++ (strData "<< /Size "
        ++ (natStr (sortById (st0.writeBody ext).objects).length ++ (strData "\n"
        ++ (strData "/Root 1 0 R >>\n" ++ (strData "startxref\n"
        ++ (natStr ((st0.writeBody ext).buffer.length + 1) ++ (strData "\n"
        ++ strData "%%EOF")))))))))))))) := by
    simp [Pdf.write_to, List.append_assoc]
  constructor
  · rw [hT, List.drop_left]
    exact List.prefix_append _ _
  · refine ⟨(st0.writeBody ext).buffer ++ (strData "xref\n"
        ++ (strData "0 " ++ (natStr ((st0.writeBody ext).objects.length + 1) ++ (strData "\n"
        ++ (strData "0000000000 65535 f \n"
        ++ ((sortById (st0.writeBody ext).objects).flatMap (fun o => xrefLine (o.offset.getD 0))
        ++ (strData "trailer\n" ++ (strData "<< /Size "
        ++ (natStr (sortById (st0.writeBody ext).objects).length ++ (strData "\n"
        ++ strData "/Root 1 0 R >>\n")))))))))), ?_⟩
    have hsplit : strData "\n%%EOF" = strData "\n" ++ strData "%%EOF" := rfl
    rw [hsplit, hT]
    simp [List.append_assoc]

/-- Counterexample to C5 as stated: in the finalized empty document the
`xref` keyword begins at byte position 115, but the number emitted after
`startxref` is 116 — dropping 116 bytes does not land on the keyword. -/
theorem startxref_claim_false :
    (Pdf.new.write_to ext0).buffer.drop 218 = strData "startxref\n116\n%%EOF" ∧
    ((Pdf.new.write_to ext0).buffer.drop 115).take 4 = strData "xref" ∧
    ¬ strData "xref" <+: (Pdf.new.write_to ext0).buffer.drop 116 := by
  refine ⟨by decide, by decide, by decide⟩

/-- Maximum of a list extended on the right by one element. -/
theorem max?_append_singleton (l : List Nat) (a : Nat) :
    (l ++ [a]).max? = some (l.max?.elim a (fun m => max m a)) := by
  induction l with
  | nil => simp [List.max?_cons, List.max?_nil]
  | cons x xs ih =>
    rw [List.cons_append, List.max?_cons, List.max?_cons, ih]
    cases hx : xs.max? <;> simp [Option.elim] <;> omega

/-- The maximum of `1, …, n` is `n`. -/
theorem range'_one_max (n : Nat) (h : 1 ≤ n) : (List.range' 1 n).max? = some n := by
  induction n with
  | zero => omega
  | succ m ih =>
    rcases Nat.eq_zero_or_pos m with hm | hm
    · subst hm; decide
    · rw [List.range'_concat, max?_append_singleton, ih hm]
      simp [Option.elim]
      omega

/-- `wfIds` only looks at the object list. -/
theorem wfIds_of_objects_eq {st1 st2 : Pdf} (h : st1.objects = st2.objects)
    (hw : wfIds st2) : wfIds st1 := by
  unfold wfIds at *
  rw [h]
  exact hw

/-- `add_object` on a well-formed state allocates `max(ids) + 1 = n + 1` and
preserves well-formedness. -/
theorem wf_add_object (st : Pdf) (h : wfIds st) (d : Bytes) (p x : Bool) :
    wfIds (st.add_object d p x).1 ∧ (st.add_object d p x).2 = st.objects.length + 1 := by
  obtain ⟨hmap, hlen⟩ := h
  have hmax : ((st.objects.map (fun o => o.id)).max?.getD 3) = st.objects.length := by
    rw [hmap, range'_one_max _ (by omega)]
    rfl
  have hobjs : (st.add_object d p x).1.objects
      = st.objects ++ [PdfObject.mk d (st.objects.length + 1) p x none] := by
    simp only [Pdf.add_object]
    rw [hmax]
  have hid : (st.add_object d p x).2 = st.objects.length + 1 := by
    simp only [Pdf.add_object]
    rw [hmax]
  refine ⟨⟨?_, ?_⟩, hid⟩
  · rw [hobjs, List.map_append, hmap, List.length_append]
    simp only [List.map_cons, List.map_nil, List.length_cons, List.length_nil,
      List.range'_concat]
    simp [Nat.add_comm]
  · rw [hobjs, List.length_append]
    simp only [List.length_cons, List.length_nil]
    omega

/-- Two consecutive allocations preserve id well-formedness. -/
theorem wf_double_add (st : Pdf) (hw : wfIds st) (d1 : Bytes) (p1 x1 : Bool)
    (d2 : Bytes) (p2 x2 : Bool) :
    wfIds (((st.add_object d1 p1 x1).1.add_object d2 p2 x2).1) :=
  (wf_add_object _ (wf_add_object st hw d1 p1 x1).1 d2 p2 x2).1

/-- `end_page` preserves id well-formedness. -/
theorem wf_end_page (ext : Ext) (st : Pdf) (h : wfIds st) : wfIds (st.end_page ext) :=
  wfIds_of_objects_eq rfl (wf_double_add st h _ false false _ true false)

/-- Every public operation preserves id well-formedness. -/
theorem wf_applyOp (ext : Ext) (op : Op) (st st' : Pdf)
    (h : applyOp ext st op = some st') (hw : wfIds st) : wfIds st' := by
  cases op with
  | addPage size =>
    injection h with h
    subst h
    unfold Pdf.add_page
    by_cases hsp : st.page_buffer.isEmpty <;> simp only [hsp, if_true, if_false]
    · exact wfIds_of_objects_eq rfl hw
    · exact wfIds_of_objects_eq rfl (wf_end_page ext st hw)
  | setCompression c => injection h with h; subst h; exact wfIds_of_objects_eq rfl hw
  | setClippingBox l s => injection h with h; subst h; exact wfIds_of_objects_eq rfl hw
  | addImageAt im l => injection h with h; subst h; exact wfIds_of_objects_eq rfl hw
  | moveTo p => injection h with h; subst h; exact wfIds_of_objects_eq rfl hw
  | lineTo p => injection h with h; subst h; exact wfIds_of_objects_eq rfl hw
  | curveTo c1 c2 p3 => injection h with h; subst h; exact wfIds_of_objects_eq rfl hw
  | setLineWidth w => injection h with h; subst h; exact wfIds_of_objects_eq rfl hw
  | setColor c => injection h with h; subst h; exact wfIds_of_objects_eq rfl hw
  | transform m => injection h with h; subst h; exact wfIds_of_objects_eq rfl hw
  | drawCircle c r => injection h with h; subst h; exact wfIds_of_objects_eq rfl hw
  | drawCircleFilled c r => injection h with h; subst h; exact wfIds_of_objects_eq rfl hw
  | drawDots x y =>
    injection h with h
    subst h
    exact wfIds_of_objects_eq rfl (wf_double_add st hw _ false false _ false true)
  | drawLine xs ys => injection h with h; subst h; exact wfIds_of_objects_eq rfl hw
  | endLine => injection h with h; subst h; exact wfIds_of_objects_eq rfl hw
  | drawRectangleFilled c s => injection h with h; subst h; exact wfIds_of_objects_eq rfl hw
  | drawRectangle c s => injection h with h; subst h; exact wfIds_of_objects_eq rfl hw
  | font f s =>
    injection h with h
    subst h
    have : (st.font f s).objects = st.objects := by
      unfold Pdf.font
      split <;> rfl
    exact wfIds_of_objects_eq this hw
  | drawText p a t =>
    simp only [applyOp, Pdf.draw_text, bind, Option.bind_eq_some, Option.pure_def,
      Option.some.injEq] at h
    obtain ⟨pb, _, h2⟩ := h
    subst h2
    exact wfIds_of_objects_eq rfl hw

/-- Any operation sequence run from a well-formed state ends well-formed. -/
theorem wf_foldl (ext : Ext) (ops : List Op) : ∀ st st',
    ops.foldlM (applyOp ext) st = some st' → wfIds st → wfIds st' := by
  induction ops with
  | nil =>
    intro st st' h hw
    simp only [List.foldlM_nil, Option.pure_def, Option.some.injEq] at h
    subst h
    exact hw
  | cons a l ih =>
    intro st st' h hw
    rw [List.foldlM_cons] at h
    cases happ : applyOp ext st a with
    | none => rw [happ] at h; cases h
    | some st1 =>
      rw [happ] at h
      exact ih st1 st' h (wf_applyOp ext a st st1 happ hw)

/-- C6: after any sequence of drawing/page/font operations the object ids in
allocation order are exactly 1, 2, …, n (strictly increasing, never reused,
never skipped, reserved ids 1 and 2 in place), and the next allocation yields
`max(existing ids) + 1 = n + 1`, an id not yet in use. -/
theorem object_id_allocation (ext : Ext) (ops : List Op) (st' : Pdf)
    (h : run ext ops = some st') :
    st'.objects.map (fun o => o.id) = List.range' 1 st'.objects.length ∧
    2 ≤ st'.objects.length ∧
    ∀ d p x, (st'.add_object d p x).2 = st'.objects.length + 1 ∧
      (st'.add_object d p x).2 ∉ st'.objects.map (fun o => o.id) := by
  have hnew : wfIds Pdf.new := by
    constructor
    · decide
    · decide
  have hw : wfIds st' := wf_foldl ext ops Pdf.new st' h hnew
  refine ⟨hw.1, hw.2, ?_⟩
  intro d p x
  have ha := wf_add_object st' hw d p x
  refine ⟨ha.2, ?_⟩
  rw [ha.2, hw.1, List.mem_range'_1]
  omega

/-- Witness for C6: a concrete run with a page, a font and a dot cloud. -/
theorem object_id_allocation_witness :
    sampleDoc.objects.map (fun o => o.id) = List.range' 1 sampleDoc.objects.length ∧
    2 ≤ sampleDoc.objects.length ∧
    (sampleDoc.add_object [] false false).2 = sampleDoc.objects.length + 1 ∧
    (sampleDoc.add_object [] false false).2 ∉ sampleDoc.objects.map (fun o => o.id) := by
  have h : run ext0 sampleOps = some sampleDoc := by decide
  obtain ⟨h1, h2, h3⟩ := object_id_allocation ext0 sampleOps sampleDoc h
  exact ⟨h1, h2, (h3 [] false false).1, (h3 [] false false).2⟩

/-- `insertSorted` is a permutation of consing. -/
theorem insertSorted_perm (a : PdfObject) (l : List PdfObject) :
    (insertSorted a l).Perm (a :: l) := by
  induction l with
  | nil => exact List.Perm.refl _
  | cons b bs ih =>
    rw [insertSorted]
    split
    · exact List.Perm.refl _
    · exact (ih.cons b).trans (List.Perm.swap a b bs)

/-- The sort used before emitting the xref section is a permutation. -/
theorem sortById_perm (l : List PdfObject) : (sortById l).Perm l := by
  induction l with
  | nil => exact List.Perm.refl _
  | cons a as ih =>
    rw [sortById]
    exact (insertSorted_perm a (sortById as)).trans (ih.cons a)

/-- Specification of the object-writing loop of `write_to`: the buffer only
grows, and every emitted object records as its offset exactly the byte
position at which its `"<id> 0 obj"` token starts in the loop's final
buffer. -/
theorem writeObjsAux_spec (os : List PdfObject) : ∀ buf : Bytes,
    buf <+: (writeObjsAux buf os).1 ∧
    ∀ o' ∈ (writeObjsAux buf os).2, ∃ n, o'.offset = some n ∧
      objToken o'.id <+: ((writeObjsAux buf os).1.drop n) := by
  induction os with
  | nil =>
    intro buf
    refine ⟨List.prefix_rfl, ?_⟩
    intro o' ho'
    simp [writeObjsAux] at ho'
  | cons o rest ih =>
    intro buf
    obtain ⟨hpre, hmem⟩ :=
      ih (buf ++ objToken o.id ++ strData "\n" ++ o.contents ++ strData "endobj\n")
    have hfst : (writeObjsAux buf (o :: rest)).1
        = (writeObjsAux (buf ++ objToken o.id ++ strData "\n" ++ o.contents
            ++ strData "endobj\n") rest).1 := rfl
    have hsnd : (writeObjsAux buf (o :: rest)).2
        = { o with offset := some buf.length }
          :: (writeObjsAux (buf ++ objToken o.id ++ strData "\n" ++ o.contents
            ++ strData "endobj\n") rest).2 := rfl
    constructor
    · rw [hfst]
      refine List.IsPrefix.trans
        ⟨objToken o.id ++ (strData "\n" ++ (o.contents ++ strData "endobj\n")), ?_⟩ hpre
      simp [List.append_assoc]
    · intro o' ho'
      rw [hsnd] at ho'
      rcases List.mem_cons.mp ho' with rfl | hmem2
      · refine ⟨buf.length, rfl, ?_⟩
        rw [hfst]
        obtain ⟨w, hw⟩ := hpre
        rw [← hw]
        have hre : (buf ++ objToken o.id ++ strData "\n" ++ o.contents
              ++ strData "endobj\n") ++ w
            = buf ++ (objToken o.id ++ (strData "\n" ++ (o.contents
              ++ (strData "endobj\n" ++ w)))) := by
          simp [List.append_assoc]
        rw [hre, List.drop_left]
        exact List.prefix_append _ _
      · obtain ⟨n, hn, htok⟩ := hmem o' hmem2
        refine ⟨n, hn, ?_⟩
        rw [hfst]
        exact htok

/-- A well-formed object list starts with the catalog (id 1) and the page
tree (id 2). -/
theorem wf_objects_shape (st : Pdf) (hw : wfIds st) : ∃ o1 o2 rest,
    st.objects = o1 :: o2 :: rest ∧ o1.id = 1 ∧ o2.id = 2 := by
  obtain ⟨hmap, hlen⟩ := hw
  rcases hobjs : st.objects with _ | ⟨a, _ | ⟨b, r⟩⟩
  · rw [hobjs] at hlen
    simp at hlen
  · rw [hobjs] at hlen
    simp at hlen
  · rw [hobjs] at hmap
    have hr : List.range' 1 (a :: b :: r).length = 1 :: 2 :: List.range' 3 r.length := rfl
    rw [hr] at hmap
    simp only [List.map_cons, List.cons.injEq] at hmap
    exact ⟨a, b, r, rfl, hmap.1, hmap.2.1⟩

/-- Offsets recorded by the core body-writing phase point exactly at each
object's `"<id> 0 obj"` token, for the page tree and catalog included. -/
theorem writeBodyCore_offsets (ext : Ext) (st : Pdf) (hw : wfIds st) :
    ∀ o' ∈ (st.writeBodyCore ext).objects, ∃ n, o'.offset = some n ∧
      objToken o'.id <+: ((st.writeBodyCore ext).buffer.drop n) := by
  obtain ⟨o1, o2, rest, hobj, hid1, hid2⟩ := wf_objects_shape st hw
  have hdrop2 : st.objects.drop 2 = rest := by
    rw [hobj]
    rfl
  obtain ⟨hpre, hmem⟩ := writeObjsAux_spec rest st.buffer
  have hne : ¬ ((strData "/Kids ["
      ++ (st.objects.filter (fun o => o.is_page)).flatMap
          (fun o => natStr o.id ++ strData " 0 R ")).isEmpty = true) := by
    simp [strData]
  simp only [Pdf.writeBodyCore, hdrop2, hobj]
  intro o' ho'
  rcases List.mem_cons.mp ho' with rfl | ho2
  · -- the catalog object, id 1, written last
    dsimp only
    refine ⟨_, rfl, ?_⟩
    rw [List.drop_left, hid1]
    decide
  · rcases List.mem_cons.mp ho2 with rfl | ho3
    · -- the page tree object, id 2
      dsimp only
      refine ⟨_, rfl, ?_⟩
      rw [hobj] at hne
      rw [List.append_assoc _ (strData "/Kids ["), List.dropLast_append, if_neg hne]
      simp only [List.append_assoc]
      rw [List.drop_left, hid2]
      exact (by decide : objToken 2 <+: strData "2 0 obj\n<< /Type /Pages\n").trans
        (List.prefix_append _ _)
    · -- an ordinary object written by the loop
      obtain ⟨n, hn, htok⟩ := hmem o' ho3
      refine ⟨n, hn, ?_⟩
      rw [hobj] at hne
      rw [List.append_assoc _ (strData "/Kids ["), List.dropLast_append, if_neg hne]
      simp only [List.append_assoc]
      exact prefix_drop_append _ htok

/-- Offsets recorded by the whole body-writing phase (pending-page flush
included) point at each object's `"<id> 0 obj"` token. -/
theorem writeBody_offsets (ext : Ext) (st0 : Pdf) (hw : wfIds st0) :
    ∀ o' ∈ (st0.writeBody ext).objects, ∃ n, o'.offset = some n ∧
      objToken o'.id <+: ((st0.writeBody ext).buffer.drop n) := by
  unfold Pdf.writeBody
  split
  · exact writeBodyCore_offsets ext st0 hw
  · exact writeBodyCore_offsets ext _ (wf_end_page ext st0 hw)

/-- Decomposition of the finalized state: the objects are the sorted body
objects and the buffer is the body buffer followed by the xref section and
the trailer. -/
theorem write_to_shape (ext : Ext) (st0 : Pdf) :
    (st0.write_to ext).objects = sortById (st0.writeBody ext).objects ∧
    (st0.write_to ext).buffer
      = (st0.writeBody ext).buffer ++ (strData "xref\n"
        ++ (strData "0 " ++ (natStr ((st0.writeBody ext).objects.length + 1) ++ (strData "\n"
        ++ (strData "0000000000 65535 f \n"
        ++ ((sortById (st0.writeBody ext).objects).flatMap (fun o => xrefLine (o.offset.getD 0))
        ++ (strData "trailer\n" ++ (strData "<< /Size "
        ++ (natStr (sortById (st0.writeBody ext).objects).length ++ (strData "\n"
        ++ (strData "/Root 1 0 R >>\n" ++ (strData "startxref\n"
        ++ (natStr ((st0.writeBody ext).buffer.length + 1) ++ (strData "\n"
        ++ strData "%%EOF")))))))))))))) := by
  refine ⟨rfl, ?_⟩
  simp [Pdf.write_to, List.append_assoc]

/-- C1: after any operation sequence and finalization, every object carries a
recorded offset that is exactly the byte position at which its
`"<id> 0 obj"` token begins in the final buffer (page tree and catalog
included), and the xref section contains that offset's 20-byte entry line. -/
theorem xref_offsets_correct (ext : Ext) (ops : List Op) (st' : Pdf)
    (h : run ext ops = some st') :
    ∀ o ∈ (st'.write_to ext).objects, ∃ n, o.offset = some n ∧
      objToken o.id <+: ((st'.write_to ext).buffer.drop n) ∧
      xrefLine n <:+: (st'.write_to ext).buffer := by
  have hw : wfIds st' := wf_foldl ext ops Pdf.new st' h ⟨by decide, by decide⟩
  have hbody := writeBody_offsets ext st' hw
  obtain ⟨hobjs, hbuf⟩ := write_to_shape ext st'
  intro o ho
  rw [hobjs] at ho
  have homem : o ∈ (st'.writeBody ext).objects := (sortById_perm _).mem_iff.mp ho
  obtain ⟨n, hn, htok⟩ := hbody o homem
  refine ⟨n, hn, ?_, ?_⟩
  · rw [hbuf]
    exact prefix_drop_append _ htok
  · obtain ⟨s, t, hst⟩ := List.append_of_mem ho
    rw [hbuf, hst, List.flatMap_append, List.flatMap_cons, hn]
    simp only [Option.getD_some]
    refine ⟨(st'.writeBody ext).buffer ++ (strData "xref\n"
        ++ (strData "0 " ++ (natStr ((st'.writeBody ext).objects.length + 1) ++ (strData "\n"
        ++ (strData "0000000000 65535 f \n"
        ++ s.flatMap (fun o => xrefLine (o.offset.getD 0))))))),
      t.flatMap (fun o => xrefLine (o.offset.getD 0))
        ++ (strData "trailer\n" ++ (strData "<< /Size "
        ++ (natStr (s ++ o :: t).length ++ (strData "\n"
        ++ (strData "/Root 1 0 R >>\n" ++ (strData "startxref\n"
        ++ (natStr ((st'.writeBody ext).buffer.length + 1) ++ (strData "\n"
        ++ strData "%%EOF")))))))), ?_⟩
    simp [List.append_assoc]

set_option maxRecDepth 40000 in
/-- Witness for C1: the first object of a finalized concrete document. -/
theorem xref_offsets_correct_witness :
    ∃ n, ((sampleDoc.write_to ext0).objects.getD 0 default).offset = some n ∧
      objToken ((sampleDoc.write_to ext0).objects.getD 0 default).id
        <+: ((sampleDoc.write_to ext0).buffer.drop n) ∧
      xrefLine n <:+: (sampleDoc.write_to ext0).buffer := by
  have h : run ext0 sampleOps = some sampleDoc := by decide
  exact xref_offsets_correct ext0 sampleOps sampleDoc h
    ((sampleDoc.write_to ext0).objects.getD 0 default) (by decide)

/-! ### Lemmas for the numeric formatter (C7) -/

/-- Stripping the 48-offset recovers the digits. -/
theorem digits_map_sub (ds : List Nat) :
    (ds.map byteOfDigit).map (fun b => b - 48) = ds := by
  induction ds with
  | nil => rfl
  | cons d t ih => simp [byteOfDigit, ih]

/-- Digit bytes are at least 48. -/
theorem mem_digits_ge (b : Nat) (ds : List Nat) (h : b ∈ ds.map byteOfDigit) : 48 ≤ b := by
  obtain ⟨d, _, rfl⟩ := List.mem_map.mp h
  simp [byteOfDigit]

/-- `takeWhile (≠ dot)` over digit bytes followed by a dot collects exactly
the digit bytes. -/
theorem takeWhile_digits (ip : List Nat) (rest : List Nat) :
    (ip.map byteOfDigit ++ 46 :: rest).takeWhile (fun b => b != 46)
      = ip.map byteOfDigit := by
  induction ip with
  | nil => simp [List.takeWhile_cons]
  | cons d t ih =>
    have hd : ((byteOfDigit d != 46) = true) := by
      simp [byteOfDigit]
      omega
    simp [List.takeWhile_cons, hd, ih]

/-- `dropWhile (≠ dot)` over digit bytes followed by a dot reaches the dot. -/
theorem dropWhile_digits (ip : List Nat) (rest : List Nat) :
    (ip.map byteOfDigit ++ 46 :: rest).dropWhile (fun b => b != 46) = 46 :: rest := by
  induction ip with
  | nil => simp [List.dropWhile_cons]
  | cons d t ih =>
    have hd : ((byteOfDigit d != 46) = true) := by
      simp [byteOfDigit]
      omega
    simp [List.dropWhile_cons, hd, ih]

/-- Parsing the bytes `"<ip>.<t>"`. -/
theorem parseDecMag_digits (ip t : List Nat) :
    parseDecMag (ip.map byteOfDigit ++ 46 :: t.map byteOfDigit)
      = (natOfDigits ip : ℚ) + fracValue t := by
  rw [parseDecMag, takeWhile_digits, dropWhile_digits]
  show (natOfDigits ((ip.map byteOfDigit).map (fun b => b - 48)) : ℚ)
      + fracValue ((t.map byteOfDigit).map (fun b => b - 48))
    = (natOfDigits ip : ℚ) + fracValue t
  rw [digits_map_sub, digits_map_sub]

/-- Parsing bare integer digit bytes. -/
theorem parseDecMag_ip (ip : List Nat) :
    parseDecMag (ip.map byteOfDigit) = (natOfDigits ip : ℚ) := by
  have h1 : (ip.map byteOfDigit).takeWhile (fun b => b != 46) = ip.map byteOfDigit := by
    rw [List.takeWhile_eq_self_iff]
    intro b hb
    have := mem_digits_ge b ip hb
    simp
    omega
  have h2 : (ip.map byteOfDigit).dropWhile (fun b => b != 46) = [] := by
    rw [List.dropWhile_eq_nil_iff]
    intro b hb
    have := mem_digits_ge b ip hb
    simp
    omega
  rw [parseDecMag, h1, h2, digits_map_sub]
  simp

/-- A list whose members are all at least 48 is untouched by
`dropWhile (· == 46)`. -/
theorem dropWhile46_ge (l : List Nat) (h : ∀ b ∈ l, 48 ≤ b) :
    l.dropWhile (fun b => b == 46) = l := by
  cases l with
  | nil => rfl
  | cons b t =>
    have hb : ((b == 46) = false) := by
      have := h b (by simp)
      simp
      omega
    simp [List.dropWhile_cons, hb]

/-- The value of a fractional digit list is nonnegative. -/
theorem fracValue_nonneg (t : List Nat) : 0 ≤ fracValue t := by
  induction t with
  | nil => simp [fracValue]
  | cons d ds ih =>
    rw [fracValue]
    positivity

/-- The value of a fractional digit list with digits below 10 is below 1. -/
theorem fracValue_lt_one (t : List Nat) (h : ∀ d ∈ t, d < 10) : fracValue t < 1 := by
  induction t with
  | nil => norm_num [fracValue]
  | cons d ds ih =>
    rw [fracValue, div_lt_one (by norm_num)]
    have hd : (d : ℚ) ≤ 9 := by
      have := h d (by simp)
      exact_mod_cast Nat.lt_succ_iff.mp this
    have hds : fracValue ds < 1 := ih (fun d hd => h d (by simp [hd]))
    linarith

/-- Splitting a fractional digit list. -/
theorem fracValue_append (a b : List Nat) :
    fracValue (a ++ b) = fracValue a + (1 / 10) ^ a.length * fracValue b := by
  induction a with
  | nil => simp [fracValue]
  | cons d ds ih =>
    rw [List.cons_append, fracValue, fracValue, ih, List.length_cons]
    push_cast
    ring

/-- Appending a zero digit does not change the fractional value. -/
theorem fracValue_append_zero (t : List Nat) : fracValue (t ++ [0]) = fracValue t := by
  rw [fracValue_append]
  norm_num [fracValue]

/-- The length of a `dropWhile` result is bounded by the input length. -/
theorem length_dropWhile_le46 (p : Nat → Bool) (l : List Nat) :
    (l.dropWhile p).length ≤ l.length :=
  (List.dropWhile_sublist p).length_le

/-- The truncate-and-strip step of the formatter preserves the parsed value:
stripping trailing zero digits and a trailing dot from `"<ip>.<t>"` parses to
`ip + 0.t`. -/
theorem strip_parse (ip : List Nat) (t : List Nat) :
    parseDecMag ((ip.map byteOfDigit ++ 46 :: t.map byteOfDigit).take
        ((((ip.map byteOfDigit ++ 46 :: t.map byteOfDigit).reverse.dropWhile
            (fun b => b == 48)).dropWhile (fun b => b == 46)).length))
      = (natOfDigits ip : ℚ) + fracValue t := by
  induction t using List.reverseRecOn with
  | nil =>
    have hrev : (ip.map byteOfDigit ++ 46 :: ([] : List Nat).map byteOfDigit).reverse
        = 46 :: (ip.map byteOfDigit).reverse := by
      simp
    rw [hrev]
    rw [List.dropWhile_cons, if_neg (by decide : ¬ ((fun b => b == 48) (46 : Nat) = true))]
    rw [List.dropWhile_cons, if_pos (by decide : ((fun b => b == 46) (46 : Nat) = true))]
    rw [dropWhile46_ge _ (fun b hb => mem_digits_ge b ip (List.mem_reverse.mp hb))]
    rw [List.length_reverse]
    simp only [List.map_nil]
    rw [List.take_left, parseDecMag_ip]
    simp [fracValue]
  | append_singleton t d ih =>
    have hsplit : ip.map byteOfDigit ++ 46 :: (t ++ [d]).map byteOfDigit
        = (ip.map byteOfDigit ++ 46 :: t.map byteOfDigit) ++ [byteOfDigit d] := by
      simp [List.map_append, List.cons_append, List.append_assoc]
    rw [hsplit, List.reverse_append]
    simp only [List.reverse_cons, List.reverse_nil, List.nil_append, List.singleton_append]
    rcases Nat.eq_zero_or_pos d with hd | hd
    · subst hd
      rw [List.dropWhile_cons, if_pos (by decide : ((fun b => b == 48) (byteOfDigit 0) = true))]
      have hlen : ((((ip.map byteOfDigit ++ 46 :: t.map byteOfDigit).reverse.dropWhile
            (fun b => b == 48)).dropWhile (fun b => b == 46)).length)
          ≤ (ip.map byteOfDigit ++ 46 :: t.map byteOfDigit).length := by
        calc ((((ip.map byteOfDigit ++ 46 :: t.map byteOfDigit).reverse.dropWhile
              (fun b => b == 48)).dropWhile (fun b => b == 46)).length)
            ≤ (((ip.map byteOfDigit ++ 46 :: t.map byteOfDigit).reverse.dropWhile
              (fun b => b == 48)).length) := length_dropWhile_le46 _ _
          _ ≤ ((ip.map byteOfDigit ++ 46 :: t.map byteOfDigit).reverse.length) :=
              length_dropWhile_le46 _ _
          _ = _ := List.length_reverse _
      rw [List.take_append_of_le_length hlen, ih, fracValue_append_zero]
    · have h48 : ¬ ((fun b => b == 48) (byteOfDigit d) = true) := by
        simp [byteOfDigit]
        omega
      rw [List.dropWhile_cons, if_neg h48]
      have h46 : ¬ ((fun b => b == 46) (byteOfDigit d) = true) := by
        simp [byteOfDigit]
        omega
      rw [List.dropWhile_cons, if_neg h46]
      rw [List.length_cons, List.length_reverse]
      have hfull : (ip.map byteOfDigit ++ 46 :: t.map byteOfDigit).length + 1
          = ((ip.map byteOfDigit ++ 46 :: t.map byteOfDigit) ++ [byteOfDigit d]).length := by
        simp only [List.length_append, List.length_cons, List.length_map, List.length_nil]
      rw [hfull, List.take_of_length_le (le_refl _), ← hsplit, parseDecMag_digits]

/-- The dot is found at index `ip.length` (generalized accumulator). -/
theorem findIdx_dot_aux (rest : List Nat) (ip : List Nat) : ∀ i : Nat,
    (ip.map byteOfDigit ++ 46 :: rest).findIdx? (fun b => b == 46) i
      = some (ip.length + i) := by
  induction ip with
  | nil =>
    intro i
    simp [List.findIdx?_cons]
  | cons d t ih =>
    intro i
    have hd : ¬ ((fun b => b == 46) (byteOfDigit d) = true) := by
      simp [byteOfDigit]
      omega
    rw [List.map_cons, List.cons_append, List.findIdx?_cons, if_neg hd, ih (i + 1)]
    congr 1
    simp [List.length_cons]
    omega

/-- The formatter's dot search lands exactly on the dot byte. -/
theorem findIdx_dot (ip rest : List Nat) :
    (ip.map byteOfDigit ++ 46 :: rest).findIdx? (fun b => b == 46) = some ip.length := by
  have h := findIdx_dot_aux rest ip 0
  simpa using h

/-- The truncation step keeps the integer digits, the dot, and the first
`p` fractional digits. -/
theorem take_trunc (ip frac : List Nat) (p : Nat) :
    (ip.map byteOfDigit ++ 46 :: frac.map byteOfDigit).take
        (min (ip.map byteOfDigit ++ 46 :: frac.map byteOfDigit).length (ip.length + 1 + p))
      = ip.map byteOfDigit ++ 46 :: (frac.take p).map byteOfDigit := by
  have hgrp : ip.map byteOfDigit ++ 46 :: frac.map byteOfDigit
      = (ip.map byteOfDigit ++ [46]) ++ frac.map byteOfDigit := by
    simp [List.append_assoc]
  have hlen1 : (ip.map byteOfDigit ++ [46]).length = ip.length + 1 := by
    simp
  have hmin : min (ip.map byteOfDigit ++ 46 :: frac.map byteOfDigit).length (ip.length + 1 + p)
      = (ip.map byteOfDigit ++ [46]).length + min frac.length p := by
    rw [hlen1, hgrp, List.length_append, hlen1, List.length_map, Nat.add_min_add_left]
  rw [hmin]
  conv_lhs => rw [hgrp]
  rw [List.take_append]
  have htk : (frac.map byteOfDigit).take (min frac.length p) = (frac.take p).map byteOfDigit := by
    rcases le_total frac.length p with hp | hp
    · rw [Nat.min_eq_left hp, List.take_of_length_le (by simp [hp]),
        List.take_of_length_le hp]
    · rw [Nat.min_eq_right hp, List.map_take]
  rw [htk]
  simp [List.append_assoc]

/-- Parsing ignores the sign branch when the token does not start with a
minus byte. -/
theorem parseDec_not45 (bs : List Nat) (h : bs.head? ≠ some 45) :
    parseDec bs = parseDecMag bs := by
  unfold parseDec
  split
  · simp at h
  · rfl

/-- Bytes of a digits-dot-digits string are all at least 46. -/
theorem bs_ge46 (ip t : List Nat) :
    ∀ b ∈ ip.map byteOfDigit ++ 46 :: t.map byteOfDigit, 46 ≤ b := by
  intro b hb
  rcases List.mem_append.mp hb with h | h
  · exact le_trans (by norm_num) (mem_digits_ge b ip h)
  · rcases List.mem_cons.mp h with rfl | h
    · exact le_refl _
    · exact le_trans (by norm_num) (mem_digits_ge b t h)

/-- A truncated all-≥46 byte string never starts with the minus byte 45. -/
theorem parseDec_take_ge46 (l : List Nat) (h : ∀ b ∈ l, 46 ≤ b) (n : Nat) :
    parseDec (l.take n) = parseDecMag (l.take n) := by
  apply parseDec_not45
  intro hh
  have hmem : 45 ∈ l.take n := by
    cases htk : l.take n with
    | nil => rw [htk] at hh; simp at hh
    | cons a tl =>
      rw [htk] at hh
      simp at hh
      rw [hh]
      simp
  have h45 := h 45 (List.mem_of_mem_take hmem)
  omega

/-- In the plain-notation range the formatted magnitude token parses as an
unsigned decimal. -/
theorem ryuFormatMag_parseDec (ryu : ℚ → RyuDigits) (fallback : ℚ → List Nat) (p : Nat)
    (x : ℚ) (h1 : 1 / 100000 < x) (h2 : x < 10 ^ 16) :
    parseDec (ryuFormatMag ryu fallback p x) = parseDecMag (ryuFormatMag ryu fallback p x) := by
  have hx0 : ¬ x = 0 := by
    intro h
    rw [h] at h1
    norm_num at h1
  by_cases hx1 : x = 1
  · subst hx1
    rw [ryuFormatMag, if_pos rfl]
    exact parseDec_not45 [49] (by decide)
  · rw [ryuFormatMag, if_neg hx1, if_neg hx0, if_pos (And.intro h1 h2)]
    dsimp only
    rw [show ryuBytes (ryu x)
        = (ryu x).ip.map byteOfDigit ++ 46 :: (ryu x).frac.map byteOfDigit from rfl]
    rw [findIdx_dot]
    dsimp only
    rw [take_trunc]
    exact parseDec_take_ge46 _ (bs_ge46 _ _) _

/-- Magnitude round-trip: in the plain-notation range the parsed token
undershoots the value by at most one unit in the last kept fractional
place. -/
theorem ryuFormatMag_parse (ryu : ℚ → RyuDigits) (fallback : ℚ → List Nat) (p : Nat)
    (x : ℚ) (h1 : 1 / 100000 < x) (h2 : x < 10 ^ 16)
    (hdig : ∀ d ∈ (ryu x).frac, d < 10) (hval : decValue (ryu x) = x) :
    0 ≤ x - parseDecMag (ryuFormatMag ryu fallback p x) ∧
    x - parseDecMag (ryuFormatMag ryu fallback p x) ≤ (1 / 10) ^ p := by
  have hx0 : ¬ x = 0 := by
    intro h
    rw [h] at h1
    norm_num at h1
  by_cases hx1 : x = 1
  · subst hx1
    rw [ryuFormatMag, if_pos rfl]
    have h49 : parseDecMag [49] = 1 := by
      rw [show ([49] : List Nat) = [1].map byteOfDigit from rfl, parseDecMag_ip,
        show natOfDigits [1] = 1 from rfl, Nat.cast_one]
    rw [h49]
    refine ⟨by norm_num, ?_⟩
    have h0 : (1 : ℚ) - 1 = 0 := by norm_num
    rw [h0]
    positivity
  · rw [ryuFormatMag, if_neg hx1, if_neg hx0, if_pos (And.intro h1 h2)]
    dsimp only
    rw [show ryuBytes (ryu x)
        = (ryu x).ip.map byteOfDigit ++ 46 :: (ryu x).frac.map byteOfDigit from rfl]
    rw [findIdx_dot]
    dsimp only
    rw [take_trunc, strip_parse]
    have hx : x - ((natOfDigits (ryu x).ip : ℚ) + fracValue ((ryu x).frac.take p))
        = (1 / 10) ^ (((ryu x).frac.take p).length) * fracValue ((ryu x).frac.drop p) := by
      rw [decValue] at hval
      have hsplit : fracValue (ryu x).frac
          = fracValue ((ryu x).frac.take p)
            + (1 / 10) ^ (((ryu x).frac.take p).length) * fracValue ((ryu x).frac.drop p) := by
        conv_lhs => rw [← List.take_append_drop p (ryu x).frac]
        rw [fracValue_append]
      linarith [hval, hsplit]
    rw [hx]
    constructor
    · have := fracValue_nonneg ((ryu x).frac.drop p)
      positivity
    · rcases le_or_lt p (ryu x).frac.length with hp | hp
      · have hk : ((ryu x).frac.take p).length = p := by
          rw [List.length_take]
          omega
        rw [hk]
        have hfd : fracValue ((ryu x).frac.drop p) < 1 :=
          fracValue_lt_one _ (fun d hd => hdig d (List.mem_of_mem_drop hd))
        calc (1 / 10 : ℚ) ^ p * fracValue ((ryu x).frac.drop p)
            ≤ (1 / 10 : ℚ) ^ p * 1 := by
              apply mul_le_mul_of_nonneg_left (le_of_lt hfd)
              positivity
          _ = (1 / 10 : ℚ) ^ p := mul_one _
      · rw [List.drop_eq_nil_of_le (le_of_lt hp)]
        have h0 : fracValue [] = 0 := rfl
        rw [h0, mul_zero]
        positivity

/-- C7: the numeric formatter prints exact 0 and 1 as the single bytes `0`
and `1`, prefixes every negative value with `-` followed by the formatted
magnitude, and for any value whose magnitude lies in the plain-notation range
(1e-5, 1e16) — given the ryu contract that the shortest-round-trip digits
parse back to the value — the emitted token (ryu digits truncated to
`precision` digits after the dot, trailing zeros and a trailing dot
stripped) parses back to within `10^-precision` of the original value. -/
theorem ryu_format_spec (ryu : ℚ → RyuDigits) (fallback : ℚ → List Nat) (precision : Nat) :
    ryu_format ryu fallback precision 0 = [48] ∧
    ryu_format ryu fallback precision 1 = [49] ∧
    (∀ x : ℚ, x < 0 →
      ryu_format ryu fallback precision x = 45 :: ryu_format ryu fallback precision (-x)) ∧
    (∀ x : ℚ, 1 / 100000 < |x| → |x| < 10 ^ 16 →
      (∀ d ∈ (ryu |x|).frac, d < 10) → decValue (ryu |x|) = |x| →
      |parseDec (ryu_format ryu fallback precision x) - x| ≤ (1 / 10) ^ precision) := by
  refine ⟨?_, ?_, ?_, ?_⟩
  · rw [ryu_format, if_neg (by norm_num : ¬ (0 : ℚ) < 0), ryuFormatMag,
      if_neg (by norm_num : ¬ (0 : ℚ) = 1), if_pos rfl]
  · rw [ryu_format, if_neg (by norm_num : ¬ (1 : ℚ) < 0), ryuFormatMag, if_pos rfl]
  · intro x hx
    rw [ryu_format, if_pos hx]
    congr 1
    rw [ryu_format, if_neg (by linarith : ¬ -x < 0)]
  · intro x h1 h2 hdig hval
    rcases lt_trichotomy x 0 with hneg | hzero | hpos
    · have habs : |x| = -x := abs_of_neg hneg
      rw [habs] at h1 h2 hdig hval
      obtain ⟨hge, hle⟩ := ryuFormatMag_parse ryu fallback precision (-x) h1 h2 hdig hval
      rw [ryu_format, if_pos hneg]
      have hpd : parseDec (45 :: ryuFormatMag ryu fallback precision (-x))
          = -(parseDecMag (ryuFormatMag ryu fallback precision (-x))) := rfl
      rw [hpd]
      have heq : -(parseDecMag (ryuFormatMag ryu fallback precision (-x))) - x
          = (-x) - parseDecMag (ryuFormatMag ryu fallback precision (-x)) := by ring
      rw [heq, abs_of_nonneg hge]
      exact hle
    · subst hzero
      norm_num at h1
    · have habs : |x| = x := abs_of_pos hpos
      rw [habs] at h1 h2 hdig hval
      obtain ⟨hge, hle⟩ := ryuFormatMag_parse ryu fallback precision x h1 h2 hdig hval
      rw [ryu_format, if_neg (by linarith : ¬ x < 0)]
      rw [ryuFormatMag_parseDec ryu fallback precision x h1 h2]
      have heq : parseDecMag (ryuFormatMag ryu fallback precision x) - x
          = -(x - parseDecMag (ryuFormatMag ryu fallback precision x)) := by ring
      rw [heq, abs_neg, abs_of_nonneg hge]
      exact hle

/-- Witness for C7: concrete digit provider reporting `1.5`, precision 2,
evaluated at 0, 1, −5/2 and 3/2. -/
theorem ryu_format_spec_witness :
    ryu_format ryuW fbW 2 0 = [48] ∧
    ryu_format ryuW fbW 2 1 = [49] ∧
    ryu_format ryuW fbW 2 (-(5 / 2)) = 45 :: ryu_format ryuW fbW 2 (5 / 2) ∧
    |parseDec (ryu_format ryuW fbW 2 (3 / 2)) - 3 / 2| ≤ (1 / 10) ^ 2 := by
  obtain ⟨ha, hb, hc, hd⟩ := ryu_format_spec ryuW fbW 2
  refine ⟨ha, hb, ?_, ?_⟩
  · have h := hc (-(5 / 2)) (by norm_num)
    simpa using h
  · have habs : |(3 / 2 : ℚ)| = 3 / 2 := abs_of_pos (by norm_num)
    refine hd (3 / 2) (by rw [habs]; norm_num) (by rw [habs]; norm_num) ?_ ?_
    · intro d hdm
      simp [ryuW] at hdm
      omega
    · rw [habs]
      have hdv : decValue (ryuW (3 / 2)) = ((natOfDigits [1] : ℕ) : ℚ)
          + (((5 : ℕ) : ℚ) + fracValue []) / 10 := rfl
      rw [hdv]
      norm_num [natOfDigits, fracValue]

end Pdfpdf
